import Mathlib

/-!
Verification development for the taika rendering/windowing core.

The Rust source is shallowly embedded: drawables, passes and windows are
identified by natural-number ids (reference identity of the `Arc` handles),
GPU/OS side effects are recorded as explicit event values, stateful objects
become structures with explicit state passing, and machine integers that
never overflow in the modelled scenarios are `Nat`/`ℚ`.
-/

namespace Taika

/-! ## PrimaryDrawPass (src/rendering/primary_draw_pass.rs)

`DrawableElement` pairs a drawable (identified by reference identity, here a
`Nat` id) with its z value.  Its `Ord` instance is `self.z.cmp(&other.z).reverse()`,
so in the max-`BinaryHeap` an element is strictly greater than another iff its
z is strictly smaller. -/

/-- `(drawable id, z)`, mirroring `DrawableElement { drawable, z }`. -/
abbrev DrawableElement := Nat × Nat

/-- `std::collections::BinaryHeap` sift-up on the underlying vector, after the
new element was appended at index `pos`: while the element at the hole is
strictly greater than its parent (with `DrawableElement`'s reversed ordering:
strictly smaller z), it moves up.  Equal elements stop the loop.  The hole
index strictly decreases on every iteration, so the loop is written with a
structural fuel parameter that `siftUp` seeds with `pos + 1`, an upper bound
on the number of iterations. -/
def siftUpGo : Nat → List DrawableElement → Nat → List DrawableElement
  | 0, l, _ => l
  | fuel + 1, l, pos =>
    if pos = 0 then l
    else
      let parent := (pos - 1) / 2
      match l.get? pos, l.get? parent with
      | some x, some p =>
        if x.2 < p.2 then siftUpGo fuel ((l.set pos p).set parent x) parent else l
      | _, _ => l

/-- See `siftUpGo`. -/
def siftUp (l : List DrawableElement) (pos : Nat) : List DrawableElement :=
  siftUpGo (pos + 1) l pos

/-- `BinaryHeap::push`: append to the underlying vector, then sift the new
last element up. -/
def heapPush (l : List DrawableElement) (x : DrawableElement) : List DrawableElement :=
  siftUp (l ++ [x]) l.length

/-- State of `PrimaryDrawPass`: `drawables` is the `BinaryHeap`'s underlying
vector (in heap layout order — `BinaryHeap::iter` visits exactly this order),
`new_drawables` is the pending list.  The name, target and clear color do not
affect the scheduling behaviour modelled here. -/
structure PrimaryDrawPass where
  drawables : List DrawableElement
  new_drawables : List DrawableElement
deriving DecidableEq

/-- `PrimaryDrawPass::new`: empty heap, empty pending list. -/
def PrimaryDrawPass.new : PrimaryDrawPass := ⟨[], []⟩

/-- `add_drawable(drawable, z)`: `self.new_drawables.push((drawable, z))`. -/
def PrimaryDrawPass.add_drawable (s : PrimaryDrawPass) (d z : Nat) : PrimaryDrawPass :=
  { s with new_drawables := s.new_drawables ++ [(d, z)] }

/-- `remove_drawable(drawable)`: retain, by reference identity, the other
drawables in both the heap and the pending list.  (`BinaryHeap::retain`
additionally restores the heap layout of the retained elements; that internal
permutation is not observable by any property proved below, which depend only
on the retained contents, so the underlying vector is modelled as filtered in
place.) -/
def PrimaryDrawPass.remove_drawable (s : PrimaryDrawPass) (d : Nat) : PrimaryDrawPass :=
  { drawables := s.drawables.filter (fun e => e.1 != d)
    new_drawables := s.new_drawables.filter (fun e => e.1 != d) }

/-- Calls made on drawables by the pass (`Drawable::init`, `Drawable::draw`). -/
inductive Ev where
  | initEv (d : Nat)
  | drawEv (d : Nat)
deriving DecidableEq

/-- `PrimaryDrawPass::render`: drain the pending list in order, calling `init`
on each drawable and pushing it into the heap; then lock every drawable by
iterating the heap's underlying vector (`BinaryHeap::iter` order) and `draw`
each one in that same order. -/
def PrimaryDrawPass.render (s : PrimaryDrawPass) : PrimaryDrawPass × List Ev :=
  let heap := s.new_drawables.foldl heapPush s.drawables
  ({ drawables := heap, new_drawables := [] },
    s.new_drawables.map (fun e => Ev.initEv e.1) ++ heap.map (fun e => Ev.drawEv e.1))

/-- `drawable_count`: `self.drawables.len()` — the heap only, not the pending
list. -/
def PrimaryDrawPass.drawable_count (s : PrimaryDrawPass) : Nat :=
  s.drawables.length

/-- The drawable ids passed to `draw`, in order, of an emitted event list. -/
def drawnIds (evs : List Ev) : List Nat :=
  evs.filterMap (fun e => match e with | .drawEv d => some d | _ => none)

/-- The drawable ids passed to `init`, in order, of an emitted event list. -/
def initedIds (evs : List Ev) : List Nat :=
  evs.filterMap (fun e => match e with | .initEv d => some d | _ => none)

/-- Fold a list of `(drawable, z)` pairs through `add_drawable`. -/
def applyAdds (s : PrimaryDrawPass) (adds : List (Nat × Nat)) : PrimaryDrawPass :=
  adds.foldl (fun t e => t.add_drawable e.1 e.2) s

/-- The host-visible operations on a `PrimaryDrawPass` (the `Arc<Mutex<_>>`
around the pass serializes them, so a host call issued during an in-progress
`render` takes effect once `render` returns). -/
inductive Op where
  | addDrawable (d z : Nat)
  | removeDrawable (d : Nat)
  | render
deriving DecidableEq

/-- Apply one operation, returning the new state and the `init`/`draw` calls
it makes on drawables. -/
def applyOp (s : PrimaryDrawPass) (op : Op) : PrimaryDrawPass × List Ev :=
  match op with
  | .addDrawable d z => (s.add_drawable d z, [])
  | .removeDrawable d => (s.remove_drawable d, [])
  | .render => s.render

/-- Run a sequence of operations, concatenating the emitted events. -/
def runOps : PrimaryDrawPass → List Op → PrimaryDrawPass × List Ev
  | s, [] => (s, [])
  | s, op :: rest =>
    let r := applyOp s op
    let r2 := runOps r.1 rest
    (r2.1, r.2 ++ r2.2)

/-- The drawable ids passed to `add_drawable` by a sequence of operations. -/
def addIds : List Op → List Nat
  | [] => []
  | .addDrawable d _ :: rest => d :: addIds rest
  | _ :: rest => addIds rest

/-- How many times `init` was called on drawable `d` in an event list. -/
def initCount (evs : List Ev) (d : Nat) : Nat :=
  evs.count (Ev.initEv d)

/-- The drawable ids of a list of `DrawableElement`s. -/
def idsOf (l : List DrawableElement) : List Nat :=
  l.map Prod.fst

/-- The pending-list discipline: pending drawables were never initialized, the
active (heap) drawables were initialized exactly once, drawables never added
are untouched and absent, and the pending ids are pairwise distinct.  `seen`
is the set of ids handed to `add_drawable` so far, `evs` the events emitted so
far. -/
def PassInv (seen : List Nat) (s : PrimaryDrawPass) (evs : List Ev) : Prop :=
  (∀ d ∈ idsOf s.new_drawables, initCount evs d = 0) ∧
  (∀ d ∈ idsOf s.drawables, initCount evs d = 1) ∧
  (∀ d, d ∉ seen → initCount evs d = 0 ∧ d ∉ idsOf s.new_drawables ∧ d ∉ idsOf s.drawables) ∧
  (idsOf s.new_drawables).Nodup

/-! ## DefaultRenderPipeline (src/rendering/mod.rs)

Render passes are identified by the reference identity of their
`Arc<Mutex<dyn RenderPass>>` handles (`Nat` ids); the GPU calls the pipeline
makes on the global bind group and on the passes are recorded as events. -/

/-- Calls made by `DefaultRenderPipeline` on its global bind group and passes. -/
inductive PipeEv where
  | globalInitEv
  | passInitEv (p : Nat)
  | preRenderEv
  | passRenderEv (p : Nat)
deriving DecidableEq

/-- `DefaultRenderPipeline { render_passes, initialized, .. }` (the global
bind group and name carry no scheduling state beyond the events emitted). -/
structure DefaultRenderPipeline where
  render_passes : List Nat
  initialized : Bool
deriving DecidableEq

/-- `DefaultRenderPipeline::new`: no passes, `initialized: false`. -/
def DefaultRenderPipeline.new : DefaultRenderPipeline := ⟨[], false⟩

/-- `add_render_pass`: appends to the ordered pass sequence. -/
def DefaultRenderPipeline.add_render_pass (p : DefaultRenderPipeline) (rp : Nat) :
    DefaultRenderPipeline :=
  { p with render_passes := p.render_passes ++ [rp] }

/-- `DefaultRenderPipeline::init`: `global_bind_group.init(device)`, then every
pass's `init` in declared order.  (It does not touch the `initialized` flag;
`render` sets it.) -/
def DefaultRenderPipeline.init (p : DefaultRenderPipeline) : List PipeEv :=
  PipeEv.globalInitEv :: p.render_passes.map PipeEv.passInitEv

/-- The per-call body of `DefaultRenderPipeline::render` after the lazy-init
check: `pre_render` on the global bind group, then each pass's `render` in
declared order. -/
def DefaultRenderPipeline.frameEvents (p : DefaultRenderPipeline) : List PipeEv :=
  PipeEv.preRenderEv :: p.render_passes.map PipeEv.passRenderEv

/-- `DefaultRenderPipeline::render`: if not yet initialized, run `init` and set
the flag; then run the per-frame body. -/
def DefaultRenderPipeline.render (p : DefaultRenderPipeline) :
    DefaultRenderPipeline × List PipeEv :=
  if p.initialized = false then
    ({ p with initialized := true }, p.init ++ DefaultRenderPipeline.frameEvents p)
  else
    (p, p.frameEvents)

/-- State after `n` consecutive `render` calls. -/
def DefaultRenderPipeline.renderN (p : DefaultRenderPipeline) : Nat → DefaultRenderPipeline
  | 0 => p
  | n + 1 => (p.render.1).renderN n

/-- The per-call event lists of `n` consecutive `render` calls. -/
def DefaultRenderPipeline.renderTrace (p : DefaultRenderPipeline) : Nat → List (List PipeEv)
  | 0 => []
  | n + 1 => p.render.2 :: (p.render.1).renderTrace n

/-! ## ComputePass (src/rendering/compute.rs) -/

/-- Calls made by a `ComputePass` on its tasks. -/
inductive CpEv where
  | taskInitEv (t : Nat)
  | taskComputeEv (t : Nat)
deriving DecidableEq

/-- `ComputePass { tasks, initialized, name }`. -/
structure ComputePass where
  tasks : List Nat
  initialized : Bool
  name : String
deriving DecidableEq

/-- `ComputePass::new(name)`. -/
def ComputePass.new (name : String) : ComputePass := ⟨[], false, name⟩

/-- `add_task`: appends. -/
def ComputePass.add_task (p : ComputePass) (t : Nat) : ComputePass :=
  { p with tasks := p.tasks ++ [t] }

/-- The single-quote character used by the panic message format string. -/
def sq : String := String.singleton (Char.ofNat 39)

/-- The `ComputePass` not-initialized panic message,
`format!("ComputePass '{}' not initialized", name)`. -/
def computePassPanicMsg (name : String) : String :=
  "ComputePass " ++ sq ++ name ++ sq ++ " not initialized"

/-- `ComputePass::render`: panics (modelled as `Except.error` carrying the
panic message) when `init` has not run; otherwise runs every task's `compute`
in insertion order. -/
def ComputePass.render (p : ComputePass) : Except String (List CpEv) :=
  if p.initialized = false then
    Except.error (computePassPanicMsg p.name)
  else
    Except.ok (p.tasks.map CpEv.taskComputeEv)

/-- `ComputePass::init`: forwards `init` to every task, then sets the flag. -/
def ComputePass.init (p : ComputePass) : ComputePass × List CpEv :=
  ({ p with initialized := true }, p.tasks.map CpEv.taskInitEv)

/-! ## Window surface configuration (src/window/mod.rs)

The GPU-opaque configuration fields (texture usages, formats, present mode,
alpha mode) are identified by `Nat` ids. -/

/-- `wgpu::SurfaceConfiguration`, fields as cloned/rebuilt by
`Window::resize_surface`. -/
structure SurfaceConfiguration where
  usage : Nat
  format : Nat
  width : Nat
  height : Nat
  present_mode : Nat
  alpha_mode : Nat
  view_formats : List Nat
  desired_maximum_frame_latency : Nat
deriving DecidableEq

/-- The part of `Window` state that `resize_surface` touches. -/
structure Window where
  surface_config : Option SurfaceConfiguration
deriving DecidableEq

/-- Effects of `Window::resize_surface`: the surface reconfiguration and the
`window_resize` notification forwarded to the event-handler delegate. -/
inductive ResizeEff where
  | configureSurface (c : SurfaceConfiguration)
  | windowResize (w h : Nat)
deriving DecidableEq

/-- `Window::resize_surface(device, size, queue)`: clones the current surface
configuration (`unwrap` panics when the window was never configured — modelled
as `none`), replaces the dimensions with `size.{width,height}.max(1)`, keeps
every other field, reconfigures the surface, then forwards
`size.{width,height}.max(1)` to the event handler's `window_resize`. -/
def Window.resize_surface (win : Window) (w h : Nat) : Option (Window × List ResizeEff) :=
  match win.surface_config with
  | none => none
  | some config =>
    let c : SurfaceConfiguration :=
      { config with width := max w 1, height := max h 1 }
    some ({ surface_config := some c },
      [ResizeEff.configureSurface c, ResizeEff.windowResize (max w 1) (max h 1)])

/-! ## Frame scheduler / event router (src/app_handler.rs)

`AppState::window_event` is modelled as a function of the quit flag, the
render settings, the window list, the event's target id, the event, the
current time (`Instant::now()` as rational seconds) and whether
`surface.get_current_texture()` succeeds; it returns the updated windows and
the ordered list of observable effects. -/

/-- Modelled from the spec: `RenderSettings` is defined in a crate-root file
that is not part of this source snapshot; per the configuration surface
(spec §6) it carries `vsync` ("toggles present mode between capped/uncapped")
and `max_framerate` ("optional cap in frames/second honored only when vsync
is off") — exactly the two fields `AppState::window_event` reads. -/
structure RenderSettings where
  vsync : Bool
  max_framerate : Option Nat
deriving DecidableEq

/-- Scheduler-visible window state: its id and `last_frame` timestamp. -/
structure SchedWindow where
  wid : Nat
  last_frame : ℚ
deriving DecidableEq

/-- The OS window events the handler matches on (`winit::event::WindowEvent`);
`other` is the catch-all `_` arm. -/
inductive WEvent where
  | resized (w h : Nat)
  | closeRequested
  | focused (f : Bool)
  | redrawRequested
  | other
deriving DecidableEq

/-- Observable effects of one `window_event` dispatch. -/
inductive Eff where
  | exitLoop
  | doClosed (wid : Nat)
  | resizeSurface (wid w h : Nat)
  | doFocus (wid : Nat) (f : Bool)
  | requestRedraw (wid : Nat)
  | doFrame (wid : Nat)
  | logAcquireFailure (wid : Nat)
  | pipelineRender (wid : Nat)
  | submit (wid : Nat)
  | prePresentNotify (wid : Nat)
  | present (wid : Nat)
  | doAfterFrame (wid : Nat)
  | windowEventHook (wid : Nat)
deriving DecidableEq

/-- The frame-rate-cap guard of the `RedrawRequested` arm:
`max_framerate` configured, elapsed time since the window's last frame below
the minimum interval, and vsync off. -/
def capSkip (rs : RenderSettings) (w : SchedWindow) (now : ℚ) : Bool :=
  match rs.max_framerate with
  | some m => decide (now - w.last_frame < 1 / (m : ℚ)) && !rs.vsync
  | none => false

/-- The `RedrawRequested` arm.  On a cap skip it only re-requests a redraw and
`break`s; otherwise it records `last_frame = Instant::now()`, notifies
`do_frame`, and acquires the surface texture — on failure it logs and
`return`s, on success it renders the pipeline, submits, notifies, presents,
notifies `do_after_frame` and re-requests a redraw.  The third component
records whether control falls through to the generic `do_window_event` call
after the `match` (both `break` and `return` bypass it). -/
def redrawArm (rs : RenderSettings) (w : SchedWindow) (now : ℚ) (acquireOk : Bool) :
    SchedWindow × List Eff × Bool :=
  if capSkip rs w now then
    (w, [Eff.requestRedraw w.wid], false)
  else
    let w2 : SchedWindow := { w with last_frame := now }
    if acquireOk then
      (w2, [Eff.doFrame w.wid, Eff.pipelineRender w.wid, Eff.submit w.wid,
        Eff.prePresentNotify w.wid, Eff.present w.wid, Eff.doAfterFrame w.wid,
        Eff.requestRedraw w.wid], true)
    else
      (w2, [Eff.doFrame w.wid, Eff.logAcquireFailure w.wid], false)

/-- Type-specific handling for the matched window, followed (unless bypassed
by `break`/`return` in the redraw arm) by the generic `do_window_event`
hook. -/
def handleWindow (rs : RenderSettings) (w : SchedWindow) (ev : WEvent) (now : ℚ)
    (acquireOk : Bool) : SchedWindow × List Eff :=
  match ev with
  | .resized a b => (w, [Eff.resizeSurface w.wid a b, Eff.windowEventHook w.wid])
  | .closeRequested => (w, [Eff.doClosed w.wid, Eff.exitLoop, Eff.windowEventHook w.wid])
  | .focused f => (w, [Eff.doFocus w.wid f, Eff.windowEventHook w.wid])
  | .redrawRequested =>
    let r := redrawArm rs w now acquireOk
    (r.1, r.2.1 ++ if r.2.2 then [Eff.windowEventHook w.wid] else [])
  | .other => (w, [Eff.windowEventHook w.wid])

/-- Scan `self.windows` in order; the first window whose id matches the
event's target is handled and the loop `break`s. -/
def windowEventGo (rs : RenderSettings) (ws : List SchedWindow) (wid : Nat) (ev : WEvent)
    (now : ℚ) (acquireOk : Bool) : List SchedWindow × List Eff :=
  match ws with
  | [] => ([], [])
  | w :: rest =>
    if w.wid = wid then
      let r := handleWindow rs w ev now acquireOk
      (r.1 :: rest, r.2)
    else
      let r := windowEventGo rs rest wid ev now acquireOk
      (w :: r.1, r.2)

/-- `AppState::window_event`: if the process-wide `QUIT` flag is set, request
loop exit, notify every window of closure and return; otherwise dispatch to
the matching window. -/
def window_event (quit : Bool) (rs : RenderSettings) (ws : List SchedWindow) (wid : Nat)
    (ev : WEvent) (now : ℚ) (acquireOk : Bool) : List SchedWindow × List Eff :=
  if quit then
    (ws, Eff.exitLoop :: ws.map (fun w => Eff.doClosed w.wid))
  else
    windowEventGo rs ws wid ev now acquireOk

/-- Modelled from the spec: the OS event loop (an external collaborator,
spec §4.5 and §8) delivers each queued window event, in order, to
`AppState::window_event`; events already queued when the handler requests
loop exit are still delivered before the loop returns (the spec's §8 shutdown
scenario: "close-requested event followed by further queued events for the
same window after the global quit flag is set").  Each event carries its
target window id, kind, dispatch time and surface-acquisition outcome. -/
def runEvents (quit : Bool) (rs : RenderSettings) :
    List SchedWindow → List (Nat × WEvent × ℚ × Bool) → List SchedWindow × List Eff
  | ws, [] => (ws, [])
  | ws, e :: rest =>
    let r := window_event quit rs ws e.1 e.2.1 e.2.2.1 e.2.2.2
    let r2 := runEvents quit rs r.1 rest
    (r2.1, r.2 ++ r2.2)

/-- A run of consecutive `RedrawRequested` dispatches for one window, each
with its dispatch time and acquisition outcome; returns the final window
state and the times of the dispatches that submitted a frame. -/
def runRedraws (rs : RenderSettings) : SchedWindow → List (ℚ × Bool) → SchedWindow × List ℚ
  | w, [] => (w, [])
  | w, (t, ok) :: rest =>
    let r := redrawArm rs w t ok
    let r2 := runRedraws rs r.1 rest
    (r2.1, (if Eff.submit w.wid ∈ r.2.1 then [t] else []) ++ r2.2)

/-- C1 [code_bug]: the spec (and the pass's own doc comments: "draws drawables
in order of their z value") promise draws in non-decreasing z order, but
`render` iterates `BinaryHeap::iter`, whose order is the heap's internal
layout, not sorted order.  Failing input: add z=3, then z=2, then z=1 (pairwise
distinct), then render: the heap layout is `[(2,1),(0,3),(1,2)]`, so the pass
draws the z sequence `[1, 3, 2]`, which is not non-decreasing. -/
theorem c1_render_draw_order_not_sorted_by_z :
    ((((PrimaryDrawPass.new.add_drawable 0 3).add_drawable 1 2).add_drawable 2 1).render.1.drawables
        = [(2, 1), (0, 3), (1, 2)]) ∧
    (drawnIds ((((PrimaryDrawPass.new.add_drawable 0 3).add_drawable 1 2).add_drawable 2 1).render.2)
        = [2, 0, 1]) ∧
    ¬ List.Chain' (· ≤ ·)
        ((((PrimaryDrawPass.new.add_drawable 0 3).add_drawable 1 2).add_drawable 2 1).render.1.drawables.map
          Prod.snd) := by
  refine ⟨by decide, by decide, ?_⟩
  have hz : (((PrimaryDrawPass.new.add_drawable 0 3).add_drawable 1 2).add_drawable 2 1).render.1.drawables.map
      Prod.snd = [1, 3, 2] := by decide
  rw [hz]
  intro h
  rw [List.chain'_cons, List.chain'_cons] at h
  exact absurd h.2.1 (by decide)

/-! ### Heap bookkeeping lemmas -/

theorem siftUpGo_length : ∀ (fuel : Nat) (l : List DrawableElement) (pos : Nat),
    (siftUpGo fuel l pos).length = l.length
  | 0, _, _ => rfl
  | fuel + 1, l, pos => by
    simp only [siftUpGo]
    split
    · rfl
    · split
      · split
        · rw [siftUpGo_length fuel]
          simp
        · rfl
      · rfl

theorem cons_set_perm {α : Type _} (a : α) :
    ∀ (t : List α) (k : Nat) (b : α), t.get? k = some b → (b :: t.set k a).Perm (a :: t)
  | [], k, _, h => by simp at h
  | c :: t, 0, b, h => by
    simp only [List.get?_cons_zero, Option.some.injEq] at h
    subst h
    exact List.Perm.swap a c t
  | c :: t, k + 1, b, h => by
    simp only [List.get?_cons_succ] at h
    have h1 : (b :: c :: t.set k a).Perm (c :: b :: t.set k a) := List.Perm.swap c b _
    have h2 : (c :: b :: t.set k a).Perm (c :: a :: t) := (cons_set_perm a t k b h).cons c
    have h3 : (c :: a :: t).Perm (a :: c :: t) := List.Perm.swap a c t
    simpa using (h1.trans h2).trans h3

theorem set_set_swap_perm {α : Type _} :
    ∀ (l : List α) (i j : Nat) (a b : α), j < i → l.get? i = some a → l.get? j = some b →
      ((l.set i b).set j a).Perm l
  | [], _, _, _, _, _, hi, _ => by simp at hi
  | c :: t, i, 0, a, b, hij, hi, hj => by
    obtain ⟨i', rfl⟩ : ∃ i', i = i' + 1 := ⟨i - 1, by omega⟩
    simp only [List.get?_cons_zero, Option.some.injEq] at hj
    simp only [List.get?_cons_succ] at hi
    subst hj
    simpa using cons_set_perm c t i' a hi
  | c :: t, i, j + 1, a, b, hij, hi, hj => by
    obtain ⟨i', rfl⟩ : ∃ i', i = i' + 1 := ⟨i - 1, by omega⟩
    simp only [List.get?_cons_succ] at hi hj
    simpa using (set_set_swap_perm t i' j a b (by omega) hi hj).cons c

theorem siftUpGo_perm : ∀ (fuel : Nat) (l : List DrawableElement) (pos : Nat),
    (siftUpGo fuel l pos).Perm l
  | 0, _, _ => List.Perm.refl _
  | fuel + 1, l, pos => by
    simp only [siftUpGo]
    split
    · exact List.Perm.refl _
    · rename_i hpos
      split
      · rename_i x p hx hp
        split
        · exact (siftUpGo_perm fuel _ _).trans
            (set_set_swap_perm l pos ((pos - 1) / 2) x p (by omega) hx hp)
        · exact List.Perm.refl _
      · exact List.Perm.refl _

theorem heapPush_perm (l : List DrawableElement) (x : DrawableElement) :
    (heapPush l x).Perm (x :: l) :=
  (siftUpGo_perm _ _ _).trans (List.perm_append_singleton x l)

theorem foldl_heapPush_perm :
    ∀ (p h : List DrawableElement), (p.foldl heapPush h).Perm (p ++ h)
  | [], h => List.Perm.refl _
  | e :: p, h => by
    simp only [List.foldl_cons, List.cons_append]
    exact ((foldl_heapPush_perm p (heapPush h e)).trans
      ((heapPush_perm h e).append_left p)).trans List.perm_middle

theorem applyAdds_drawables :
    ∀ (adds : List (Nat × Nat)) (s : PrimaryDrawPass), (applyAdds s adds).drawables = s.drawables
  | [], _ => rfl
  | _ :: adds, _ => applyAdds_drawables adds _

/-- C10: `drawable_count` returns `self.drawables.len()`, counting only the
active heap: any sequence of `add_drawable` calls (which only push onto the
pending list) leaves it unchanged, and a `render` call, which drains the
pending list into the heap, grows it by exactly the number of pending
drawables. -/
theorem c10_drawable_count_counts_only_active (s : PrimaryDrawPass) (adds : List (Nat × Nat)) :
    (applyAdds s adds).drawable_count = s.drawable_count ∧
    s.render.1.drawable_count = s.drawable_count + s.new_drawables.length := by
  constructor
  · unfold PrimaryDrawPass.drawable_count
    rw [applyAdds_drawables]
  · unfold PrimaryDrawPass.drawable_count PrimaryDrawPass.render
    simp only []
    rw [(foldl_heapPush_perm s.new_drawables s.drawables).length_eq]
    simp [Nat.add_comm]

/-! ### Event counting lemmas -/

theorem initCount_append (e1 e2 : List Ev) (d : Nat) :
    initCount (e1 ++ e2) d = initCount e1 d + initCount e2 d :=
  List.count_append _ _ _

theorem initCount_map_init : ∀ (l : List DrawableElement) (d : Nat),
    initCount (l.map (fun e => Ev.initEv e.1)) d = (idsOf l).count d
  | [], _ => rfl
  | e :: l, d => by
    simp only [initCount, idsOf, List.map_cons, List.count_cons]
    rw [← initCount, initCount_map_init l d, ← idsOf]
    congr 1
    by_cases h : e.1 = d <;> simp [h]

theorem initCount_map_draw (l : List DrawableElement) (d : Nat) :
    initCount (l.map (fun e => Ev.drawEv e.1)) d = 0 := by
  rw [initCount, List.count_eq_zero]
  intro h
  obtain ⟨e, _, he⟩ := List.mem_map.mp h
  simp at he

theorem init_not_mem_map_draw (l : List DrawableElement) (d : Nat) :
    Ev.initEv d ∉ l.map (fun e => Ev.drawEv e.1) := by
  intro h
  obtain ⟨e, _, he⟩ := List.mem_map.mp h
  simp at he

theorem draw_not_mem_map_init (l : List DrawableElement) (d : Nat) :
    Ev.drawEv d ∉ l.map (fun e => Ev.initEv e.1) := by
  intro h
  obtain ⟨e, _, he⟩ := List.mem_map.mp h
  simp at he

theorem mem_map_draw (l : List DrawableElement) (d : Nat) :
    Ev.drawEv d ∈ l.map (fun e => Ev.drawEv e.1) ↔ d ∈ idsOf l := by
  simp [idsOf]

theorem mem_map_init (l : List DrawableElement) (d : Nat) :
    Ev.initEv d ∈ l.map (fun e => Ev.initEv e.1) ↔ d ∈ idsOf l := by
  simp [idsOf]

theorem render_heap_ids_perm (s : PrimaryDrawPass) :
    (idsOf s.render.1.drawables).Perm (idsOf s.new_drawables ++ idsOf s.drawables) := by
  unfold PrimaryDrawPass.render
  have h := (foldl_heapPush_perm s.new_drawables s.drawables).map Prod.fst
  simpa [idsOf] using h

theorem render_events (s : PrimaryDrawPass) :
    s.render.2 = s.new_drawables.map (fun e => Ev.initEv e.1)
      ++ s.render.1.drawables.map (fun e => Ev.drawEv e.1) := rfl

theorem render_pending (s : PrimaryDrawPass) : s.render.1.new_drawables = [] := rfl

theorem idsOf_filter_subset (l : List DrawableElement) (p : DrawableElement → Bool) :
    ∀ x ∈ idsOf (l.filter p), x ∈ idsOf l := by
  intro x hx
  obtain ⟨e, he, rfl⟩ := List.mem_map.mp hx
  exact List.mem_map.mpr ⟨e, List.mem_of_mem_filter he, rfl⟩

theorem idsOf_append (l1 l2 : List DrawableElement) :
    idsOf (l1 ++ l2) = idsOf l1 ++ idsOf l2 :=
  List.map_append _ _ _

/-! ### Preservation of the pending-list discipline -/

theorem PassInv.mono {seen1 seen2 : List Nat} {s : PrimaryDrawPass} {evs : List Ev}
    (hsub : ∀ x ∈ seen1, x ∈ seen2) (h : PassInv seen1 s evs) : PassInv seen2 s evs := by
  obtain ⟨h1, h2, h3, h4⟩ := h
  exact ⟨h1, h2, fun d hd => h3 d (fun hmem => hd (hsub d hmem)), h4⟩

theorem PassInv.add {seen : List Nat} {s : PrimaryDrawPass} {evs : List Ev}
    (h : PassInv seen s evs) (d z : Nat) (hd : d ∉ seen) :
    PassInv (d :: seen) (s.add_drawable d z) evs := by
  obtain ⟨h1, h2, h3, h4⟩ := h
  obtain ⟨hc0, hp, hh⟩ := h3 d hd
  have hids : idsOf (s.add_drawable d z).new_drawables = idsOf s.new_drawables ++ [d] := by
    unfold PrimaryDrawPass.add_drawable
    simp [idsOf]
  refine ⟨?_, h2, ?_, ?_⟩
  · intro d' hd'
    rw [hids] at hd'
    rcases List.mem_append.mp hd' with hmem | hmem
    · exact h1 d' hmem
    · rw [List.mem_singleton.mp hmem]
      exact hc0
  · intro d' hd'
    have hne : d' ≠ d := fun he => hd' (he ▸ List.mem_cons_self d seen)
    have hns : d' ∉ seen := fun he => hd' (List.mem_cons_of_mem d he)
    obtain ⟨g0, g1, g2⟩ := h3 d' hns
    refine ⟨g0, ?_, g2⟩
    rw [hids]
    intro hmem
    rcases List.mem_append.mp hmem with hmem | hmem
    · exact g1 hmem
    · exact hne (List.mem_singleton.mp hmem)
  · rw [hids, List.nodup_append]
    exact ⟨h4, List.nodup_singleton d, fun x hx hx' => hp (List.mem_singleton.mp hx' ▸ hx)⟩

theorem PassInv.remove {seen : List Nat} {s : PrimaryDrawPass} {evs : List Ev}
    (h : PassInv seen s evs) (d : Nat) :
    PassInv seen (s.remove_drawable d) evs := by
  obtain ⟨h1, h2, h3, h4⟩ := h
  refine ⟨?_, ?_, ?_, ?_⟩
  · exact fun d' hd' => h1 d' (idsOf_filter_subset _ _ d' hd')
  · exact fun d' hd' => h2 d' (idsOf_filter_subset _ _ d' hd')
  · intro d' hd'
    obtain ⟨g0, g1, g2⟩ := h3 d' hd'
    exact ⟨g0, fun hm => g1 (idsOf_filter_subset _ _ d' hm),
      fun hm => g2 (idsOf_filter_subset _ _ d' hm)⟩
  · exact List.Nodup.sublist (List.Sublist.map _ (List.filter_sublist _)) h4

theorem pending_heap_disjoint {seen : List Nat} {s : PrimaryDrawPass} {evs : List Ev}
    (h : PassInv seen s evs) (d : Nat) (hp : d ∈ idsOf s.new_drawables)
    (hh : d ∈ idsOf s.drawables) : False := by
  have := h.1 d hp
  have := h.2.1 d hh
  omega

theorem PassInv.render {seen : List Nat} {s : PrimaryDrawPass} {evs : List Ev}
    (h : PassInv seen s evs) :
    PassInv seen s.render.1 (evs ++ s.render.2) := by
  obtain ⟨h1, h2, h3, h4⟩ := h
  have hperm := render_heap_ids_perm s
  have hevcount : ∀ d, initCount (evs ++ s.render.2) d
      = initCount evs d + (idsOf s.new_drawables).count d := by
    intro d
    rw [render_events, initCount_append, initCount_append, initCount_map_init,
      initCount_map_draw]
    omega
  refine ⟨?_, ?_, ?_, ?_⟩
  · rw [render_pending]
    intro d hd
    simp [idsOf] at hd
  · intro d hd
    rw [hevcount d]
    rcases List.mem_append.mp (hperm.mem_iff.mp hd) with hmem | hmem
    · rw [h1 d hmem, List.count_eq_one_of_mem h4 hmem]
    · have hnp : d ∉ idsOf s.new_drawables := fun hp =>
        pending_heap_disjoint ⟨h1, h2, h3, h4⟩ d hp hmem
      rw [h2 d hmem, List.count_eq_zero.mpr hnp]
  · intro d hd
    obtain ⟨g0, g1, g2⟩ := h3 d hd
    refine ⟨?_, ?_, ?_⟩
    · rw [hevcount d, g0, List.count_eq_zero.mpr g1]
    · rw [render_pending]
      simp [idsOf]
    · intro hm
      rcases List.mem_append.mp (hperm.mem_iff.mp hm) with hmem | hmem
      · exact g1 hmem
      · exact g2 hmem
  · rw [render_pending]
    exact List.nodup_nil

theorem runOps_inv : ∀ (ops : List Op) (seen : List Nat) (s : PrimaryDrawPass) (evs : List Ev),
    PassInv seen s evs → (addIds ops).Nodup → (∀ d ∈ addIds ops, d ∉ seen) →
    PassInv (addIds ops ++ seen) (runOps s ops).1 (evs ++ (runOps s ops).2)
  | [], seen, s, evs, h, _, _ => by simpa [runOps, addIds] using h
  | .addDrawable d z :: rest, seen, s, evs, h, hnd, hfr => by
    simp only [addIds, List.nodup_cons] at hnd
    have hdseen : d ∉ seen := hfr d (by simp [addIds])
    have hstep := h.add d z hdseen
    have hrec := runOps_inv rest (d :: seen) (s.add_drawable d z) evs hstep hnd.2 ?_
    · simp only [runOps, applyOp, List.nil_append]
      refine hrec.mono ?_
      intro x hx
      simp only [addIds, List.mem_append, List.mem_cons] at *
      tauto
    · intro d' hd'
      intro hmem
      rcases List.mem_cons.mp hmem with he | he
      · exact hnd.1 (he ▸ hd')
      · exact hfr d' (by simp [addIds, hd']) he
  | .removeDrawable d :: rest, seen, s, evs, h, hnd, hfr => by
    simp only [addIds] at hnd hfr
    have hrec := runOps_inv rest seen (s.remove_drawable d) evs (h.remove d) hnd hfr
    simpa [runOps, applyOp, addIds] using hrec
  | .render :: rest, seen, s, evs, h, hnd, hfr => by
    simp only [addIds] at hnd hfr
    have hrec := runOps_inv rest seen s.render.1 (evs ++ s.render.2) h.render hnd hfr
    simpa [runOps, applyOp, addIds, List.append_assoc] using hrec

theorem applyOp_absent {s : PrimaryDrawPass} {d : Nat} (op : Op)
    (hh : d ∉ idsOf s.drawables) (hp : d ∉ idsOf s.new_drawables)
    (hop : ∀ z, op ≠ Op.addDrawable d z) :
    d ∉ idsOf (applyOp s op).1.drawables ∧ d ∉ idsOf (applyOp s op).1.new_drawables ∧
      Ev.initEv d ∉ (applyOp s op).2 ∧ Ev.drawEv d ∉ (applyOp s op).2 := by
  match op with
  | .addDrawable d' z =>
    have hne : d' ≠ d := fun he => hop z (by rw [he])
    refine ⟨hh, ?_, by simp [applyOp], by simp [applyOp]⟩
    unfold applyOp PrimaryDrawPass.add_drawable
    rw [idsOf_append]
    intro hmem
    rcases List.mem_append.mp hmem with hm | hm
    · exact hp hm
    · exact hne (Eq.symm (by simpa [idsOf] using hm))
  | .removeDrawable d' =>
    exact ⟨fun hm => hh (idsOf_filter_subset _ _ d hm),
      fun hm => hp (idsOf_filter_subset _ _ d hm), by simp [applyOp], by simp [applyOp]⟩
  | .render =>
    simp only [applyOp]
    have hheap : d ∉ idsOf s.render.1.drawables := by
      intro hm
      rcases List.mem_append.mp ((render_heap_ids_perm s).mem_iff.mp hm) with hm | hm
      · exact hp hm
      · exact hh hm
    refine ⟨hheap, by rw [render_pending]; simp [idsOf], ?_, ?_⟩
    · rw [render_events]
      intro hmem
      rcases List.mem_append.mp hmem with hm | hm
      · exact hp ((mem_map_init _ d).mp hm)
      · exact init_not_mem_map_draw _ d hm
    · rw [render_events]
      intro hmem
      rcases List.mem_append.mp hmem with hm | hm
      · exact draw_not_mem_map_init _ d hm
      · exact hheap ((mem_map_draw _ d).mp hm)

theorem runOps_absent : ∀ (ops : List Op) (s : PrimaryDrawPass) (d : Nat),
    d ∉ idsOf s.drawables → d ∉ idsOf s.new_drawables → (∀ z, Op.addDrawable d z ∉ ops) →
    Ev.initEv d ∉ (runOps s ops).2 ∧ Ev.drawEv d ∉ (runOps s ops).2
  | [], _, _, _, _, _ => by simp [runOps]
  | op :: rest, s, d, hh, hp, hops => by
    have hop : ∀ z, op ≠ Op.addDrawable d z := by
      intro z he
      exact hops z (he ▸ List.mem_cons_self op rest)
    obtain ⟨g1, g2, g3, g4⟩ := applyOp_absent op hh hp hop
    have hrest : ∀ z, Op.addDrawable d z ∉ rest := fun z hm =>
      hops z (List.mem_cons_of_mem op hm)
    obtain ⟨r1, r2⟩ := runOps_absent rest (applyOp s op).1 d g1 g2 hrest
    simp only [runOps, List.mem_append]
    exact ⟨fun hc => hc.elim g3 r1, fun hc => hc.elim g4 r2⟩

/-- C5: the pending-list discipline.  (a) After any well-formed operation
sequence (pairwise-distinct added drawables, reference identity) starting from
a fresh pass, every drawable still pending has never been passed to `init` and
every drawable in the active heap has been passed to `init` exactly once.
(b) A drawable handed to `add_drawable` after a `render` call drained the
pending list (the pass mutex orders a mid-render add this way) receives no
`draw` call from that render, and is drawn by the next `render`.  (c) A
drawable removed while still pending is never subsequently passed to `init`
or `draw`. -/
theorem c5_pending_list_discipline (ops : List Op) (hnd : (addIds ops).Nodup) :
    ((∀ d ∈ idsOf (runOps PrimaryDrawPass.new ops).1.new_drawables,
        initCount (runOps PrimaryDrawPass.new ops).2 d = 0) ∧
      (∀ d ∈ idsOf (runOps PrimaryDrawPass.new ops).1.drawables,
        initCount (runOps PrimaryDrawPass.new ops).2 d = 1)) ∧
    (∀ (s : PrimaryDrawPass) (d z : Nat), d ∉ idsOf s.drawables → d ∉ idsOf s.new_drawables →
      Ev.drawEv d ∉ s.render.2 ∧ Ev.drawEv d ∈ ((s.render.1.add_drawable d z).render).2) ∧
    (∀ (s : PrimaryDrawPass) (d : Nat), d ∈ idsOf s.new_drawables →
      ∀ ops2 : List Op, (∀ z, Op.addDrawable d z ∉ ops2) →
        Ev.initEv d ∉ (runOps (s.remove_drawable d) ops2).2 ∧
        Ev.drawEv d ∉ (runOps (s.remove_drawable d) ops2).2) := by
  refine ⟨?_, ?_, ?_⟩
  · have hinit : PassInv [] PrimaryDrawPass.new [] := by
      refine ⟨?_, ?_, ?_, ?_⟩ <;> simp [PrimaryDrawPass.new, idsOf, initCount]
    have h := runOps_inv ops [] PrimaryDrawPass.new [] hinit hnd (by simp)
    exact ⟨fun d hd => h.1 d hd, fun d hd => h.2.1 d hd⟩
  · intro s d z hh hp
    constructor
    · rw [render_events]
      intro hmem
      rcases List.mem_append.mp hmem with hm | hm
      · exact draw_not_mem_map_init _ d hm
      · have : d ∈ idsOf s.render.1.drawables := (mem_map_draw _ d).mp hm
        rcases List.mem_append.mp ((render_heap_ids_perm s).mem_iff.mp this) with hm' | hm'
        · exact hp hm'
        · exact hh hm'
    · rw [render_events, List.mem_append]
      right
      rw [mem_map_draw]
      refine ((render_heap_ids_perm _).mem_iff).mpr ?_
      rw [List.mem_append]
      left
      have : (s.render.1.add_drawable d z).new_drawables = [(d, z)] := by
        simp [PrimaryDrawPass.add_drawable, render_pending]
      rw [this]
      simp [idsOf]
  · intro s d _ ops2 hops2
    refine runOps_absent ops2 (s.remove_drawable d) d ?_ ?_ hops2
    · unfold PrimaryDrawPass.remove_drawable
      intro hm
      obtain ⟨e, he, hfst⟩ := List.mem_map.mp hm
      have := List.of_mem_filter he
      rw [hfst] at this
      simp at this
    · unfold PrimaryDrawPass.remove_drawable
      intro hm
      obtain ⟨e, he, hfst⟩ := List.mem_map.mp hm
      have := List.of_mem_filter he
      rw [hfst] at this
      simp at this

/-- Witness for `c5_pending_list_discipline` at the concrete operation
sequence add(7, z=5); render; add(9, z=2); remove(9). -/
theorem c5_pending_list_discipline_witness :
    initCount (runOps PrimaryDrawPass.new
        [Op.addDrawable 7 5, Op.render, Op.addDrawable 9 2, Op.removeDrawable 9]).2 7 = 1 := by
  have h := c5_pending_list_discipline
    [Op.addDrawable 7 5, Op.render, Op.addDrawable 9 2, Op.removeDrawable 9] (by decide)
  exact h.1.2 7 (by decide)

/-! ### DefaultRenderPipeline: one-time initialization -/

theorem render_of_initialized (p : DefaultRenderPipeline) (h : p.initialized = true) :
    p.render = (p, p.frameEvents) := by
  unfold DefaultRenderPipeline.render
  rw [h]
  simp

theorem render_first (p : DefaultRenderPipeline) (h : p.initialized = false) :
    p.render = ({ p with initialized := true }, p.init ++ p.frameEvents) := by
  unfold DefaultRenderPipeline.render
  rw [h]
  simp

theorem renderN_of_initialized : ∀ (n : Nat) (p : DefaultRenderPipeline),
    p.initialized = true → p.renderN n = p
  | 0, _, _ => rfl
  | n + 1, p, h => by
    unfold DefaultRenderPipeline.renderN
    rw [render_of_initialized p h]
    exact renderN_of_initialized n p h

theorem renderTrace_of_initialized : ∀ (n : Nat) (p : DefaultRenderPipeline),
    p.initialized = true → p.renderTrace n = List.replicate n p.frameEvents
  | 0, _, _ => rfl
  | n + 1, p, h => by
    unfold DefaultRenderPipeline.renderTrace
    rw [render_of_initialized p h, renderTrace_of_initialized n p h, List.replicate_succ]

/-- C2: across `N ≥ 1` consecutive `render` calls on a freshly constructed
pipeline, the one-time initialization step (`global_bind_group.init` plus
every pass's `init`, i.e. `DefaultRenderPipeline::init`) runs exactly once,
as a prefix of the first call's events; every later call emits only the
per-frame body, which contains no initialization event; and the
`initialized` flag is `true` after every `k ≥ 1` calls, never reverting. -/
theorem c2_pipeline_initializes_exactly_once (p : DefaultRenderPipeline) (N : Nat)
    (h0 : p.initialized = false) (hN : 1 ≤ N) :
    p.renderTrace N = (p.init ++ p.frameEvents) :: List.replicate (N - 1) p.frameEvents ∧
    (PipeEv.globalInitEv ∉ p.frameEvents ∧ ∀ q, PipeEv.passInitEv q ∉ p.frameEvents) ∧
    (∀ k, 1 ≤ k → (p.renderN k).initialized = true) ∧
    p.init = PipeEv.globalInitEv :: p.render_passes.map PipeEv.passInitEv := by
  obtain ⟨n, rfl⟩ : ∃ n, N = n + 1 := ⟨N - 1, by omega⟩
  have hfields : p.render.1 = { p with initialized := true } := by
    rw [render_first p h0]
  have hinit1 : p.render.1.initialized = true := by rw [hfields]
  have hframe : p.render.1.frameEvents = p.frameEvents := by
    rw [hfields]
    rfl
  refine ⟨?_, ⟨?_, ?_⟩, ?_, rfl⟩
  · show (p.renderTrace (n + 1)) = _
    unfold DefaultRenderPipeline.renderTrace
    rw [renderTrace_of_initialized n p.render.1 hinit1, hframe, render_first p h0]
    simp
  · simp [DefaultRenderPipeline.frameEvents]
  · intro q
    simp [DefaultRenderPipeline.frameEvents]
  · intro k hk
    obtain ⟨j, rfl⟩ : ∃ j, k = j + 1 := ⟨k - 1, by omega⟩
    show ((p.render.1).renderN j).initialized = true
    rw [renderN_of_initialized j p.render.1 hinit1]
    exact hinit1

/-- Witness for `c2_pipeline_initializes_exactly_once`: a pipeline with two
passes, rendered three times. -/
theorem c2_pipeline_initializes_exactly_once_witness :
    DefaultRenderPipeline.renderTrace ⟨[4, 5], false⟩ 3
      = ((⟨[4, 5], false⟩ : DefaultRenderPipeline).init
          ++ (⟨[4, 5], false⟩ : DefaultRenderPipeline).frameEvents)
        :: List.replicate 2 (⟨[4, 5], false⟩ : DefaultRenderPipeline).frameEvents :=
  (c2_pipeline_initializes_exactly_once ⟨[4, 5], false⟩ 3 rfl (by decide)).1

/-! ### ComputePass / PrimaryDrawPass: render-before-init behaviour -/

/-- C6 counterexample: the claim quantifies over every render pass, but
`PrimaryDrawPass::render` performs no initialization check: called on a pass
whose `init` (and whose pipeline's `init`) has never run, it completes
normally — draining, initializing and drawing the pending drawable — instead
of panicking. -/
theorem c6_counterexample_primary_draw_pass_renders_without_init :
    (PrimaryDrawPass.new.add_drawable 0 5).render
      = (⟨[(0, 5)], []⟩, [Ev.initEv 0, Ev.drawEv 0]) := by decide

/-- C6 as amended: for every `ComputePass`, `render` before `init` panics
with the message `ComputePass '<name>' not initialized`, which contains the
pass's name; and after `init` has run, `render` never panics for this reason
(it runs the tasks).  (`PrimaryDrawPass::render`, by contrast, has no such
check — see the counterexample.) -/
theorem c6_compute_pass_render_before_init_panics (p : ComputePass)
    (h : p.initialized = false) :
    p.render = Except.error (computePassPanicMsg p.name) ∧
    List.IsInfix p.name.data (computePassPanicMsg p.name).data ∧
    (∀ q : ComputePass, (q.init.1).render = Except.ok (q.tasks.map CpEv.taskComputeEv)) := by
  refine ⟨?_, ?_, ?_⟩
  · unfold ComputePass.render
    rw [h]
    simp
  · refine ⟨("ComputePass " ++ sq).data, (sq ++ " not initialized").data, ?_⟩
    simp [computePassPanicMsg, String.data_append, List.append_assoc]
  · intro q
    rfl

/-- Witness for `c6_compute_pass_render_before_init_panics` on a fresh pass
named "main". -/
theorem c6_compute_pass_render_before_init_panics_witness :
    (ComputePass.new "main").render = Except.error (computePassPanicMsg "main") ∧
    ((ComputePass.new "main").init.1).render = Except.ok [] :=
  ⟨(c6_compute_pass_render_before_init_panics (ComputePass.new "main") rfl).1,
    (c6_compute_pass_render_before_init_panics (ComputePass.new "main") rfl).2.2
      (ComputePass.new "main")⟩

/-! ### Window: resize clamping -/

/-- C9: `resize_surface` with requested size 0×0 produces an effective
configuration of 1×1 (dimensions clamped with `.max(1)`), preserves the
format, present mode, usage, alpha mode, view formats and frame latency of
the previous configuration, and forwards the clamped dimensions to the
event-handler delegate's `window_resize`. -/
theorem c9_resize_surface_clamps_zero_to_one (win : Window) (c : SurfaceConfiguration)
    (h : win.surface_config = some c) :
    win.resize_surface 0 0
      = some ({ surface_config := some { c with width := 1, height := 1 } },
          [ResizeEff.configureSurface { c with width := 1, height := 1 },
            ResizeEff.windowResize 1 1]) ∧
    ({ c with width := 1, height := 1 } : SurfaceConfiguration)
      = ⟨c.usage, c.format, 1, 1, c.present_mode, c.alpha_mode, c.view_formats,
          c.desired_maximum_frame_latency⟩ := by
  constructor
  · unfold Window.resize_surface
    rw [h]
    rfl
  · rfl

/-- Witness for `c9_resize_surface_clamps_zero_to_one` on a concrete
configured window. -/
theorem c9_resize_surface_clamps_zero_to_one_witness :
    Window.resize_surface ⟨some ⟨2, 3, 640, 480, 4, 5, [6], 1⟩⟩ 0 0
      = some (⟨some ⟨2, 3, 1, 1, 4, 5, [6], 1⟩⟩,
          [ResizeEff.configureSurface ⟨2, 3, 1, 1, 4, 5, [6], 1⟩,
            ResizeEff.windowResize 1 1]) :=
  (c9_resize_surface_clamps_zero_to_one ⟨some ⟨2, 3, 640, 480, 4, 5, [6], 1⟩⟩
    ⟨2, 3, 640, 480, 4, 5, [6], 1⟩ rfl).1

/-! ### Frame scheduler lemmas -/

theorem redrawArm_skip {rs : RenderSettings} {w : SchedWindow} {now : ℚ} (ok : Bool)
    (h : capSkip rs w now = true) :
    redrawArm rs w now ok = (w, [Eff.requestRedraw w.wid], false) := by
  unfold redrawArm
  rw [h]
  simp

theorem redrawArm_submit {rs : RenderSettings} {w : SchedWindow} {now : ℚ}
    (h : capSkip rs w now = false) :
    redrawArm rs w now true
      = ({ w with last_frame := now },
        [Eff.doFrame w.wid, Eff.pipelineRender w.wid, Eff.submit w.wid,
          Eff.prePresentNotify w.wid, Eff.present w.wid, Eff.doAfterFrame w.wid,
          Eff.requestRedraw w.wid], true) := by
  unfold redrawArm
  rw [h]
  simp

theorem redrawArm_fail {rs : RenderSettings} {w : SchedWindow} {now : ℚ}
    (h : capSkip rs w now = false) :
    redrawArm rs w now false
      = ({ w with last_frame := now },
        [Eff.doFrame w.wid, Eff.logAcquireFailure w.wid], false) := by
  unfold redrawArm
  rw [h]
  simp

theorem capSkip_no_vsync (m : Nat) (w : SchedWindow) (now : ℚ) :
    capSkip ⟨false, some m⟩ w now = decide (now - w.last_frame < 1 / (m : ℚ)) := by
  simp [capSkip]

theorem runRedraws_cons (rs : RenderSettings) (w : SchedWindow) (t : ℚ) (ok : Bool)
    (rest : List (ℚ × Bool)) :
    runRedraws rs w ((t, ok) :: rest)
      = ((runRedraws rs (redrawArm rs w t ok).1 rest).1,
        (if Eff.submit w.wid ∈ (redrawArm rs w t ok).2.1 then [t] else [])
          ++ (runRedraws rs (redrawArm rs w t ok).1 rest).2) := rfl

theorem runRedraws_cap_spacing (m : Nat) :
    ∀ (evs : List (ℚ × Bool)) (w : SchedWindow),
      List.Sorted (· ≤ ·) (w.last_frame :: evs.map Prod.fst) →
      List.Chain' (fun a b => a + 1 / (m : ℚ) ≤ b) (runRedraws ⟨false, some m⟩ w evs).2 ∧
      (∀ t ∈ (runRedraws ⟨false, some m⟩ w evs).2, w.last_frame + 1 / (m : ℚ) ≤ t)
  | [], w, _ => by simp [runRedraws]
  | (t, ok) :: rest, w, hsorted => by
    have hwt : w.last_frame ≤ t := (List.sorted_cons.mp hsorted).1 t (by simp)
    rw [runRedraws_cons]
    rcases hskip : capSkip ⟨false, some m⟩ w t with _ | _
    · -- no skip: `last_frame` becomes `t`
      have hge : w.last_frame + 1 / (m : ℚ) ≤ t := by
        have := of_decide_eq_false ((capSkip_no_vsync m w t) ▸ hskip)
        linarith [not_lt.mp this]
      have htail : List.Sorted (· ≤ ·)
          ((⟨w.wid, t⟩ : SchedWindow).last_frame :: rest.map Prod.fst) :=
        hsorted.tail
      have harm1 : (redrawArm ⟨false, some m⟩ w t ok).1 = ⟨w.wid, t⟩ := by
        cases ok
        · rw [redrawArm_fail hskip]
        · rw [redrawArm_submit hskip]
      obtain ⟨ihchain, ihbound⟩ := runRedraws_cap_spacing m rest ⟨w.wid, t⟩ htail
      rw [harm1]
      cases ok
      · -- acquisition failure: no submission recorded
        rw [redrawArm_fail hskip]
        simp only [List.mem_cons, List.not_mem_nil]
        rw [if_neg (by simp)]
        refine ⟨by simpa using ihchain, ?_⟩
        intro x hx
        have := ihbound x (by simpa using hx)
        simp only at this
        linarith
      · -- submission at time t
        rw [redrawArm_submit hskip]
        rw [if_pos (by simp)]
        constructor
        · rw [List.singleton_append, List.chain'_cons']
          refine ⟨fun y hy => ?_, ihchain⟩
          have := ihbound y (List.mem_of_mem_head? hy)
          simpa using this
        · intro x hx
          rcases List.mem_cons.mp (by simpa using hx) with rfl | hx2
          · exact hge
          · have := ihbound x hx2
            simp only at this
            linarith
    · -- cap skip: no state change, no submission
      rw [redrawArm_skip ok hskip]
      have hsub : List.Sorted (· ≤ ·) (w.last_frame :: rest.map Prod.fst) :=
        List.Pairwise.sublist
          (List.Sublist.cons₂ w.last_frame (List.sublist_cons_self t _)) hsorted
      obtain ⟨ihchain, ihbound⟩ := runRedraws_cap_spacing m rest w hsub
      rw [if_neg (by simp)]
      exact ⟨by simpa using ihchain, fun x hx => ihbound x (by simpa using hx)⟩

/-- C4: with `vsync = false` and `max_framerate = 30`, any monotone sequence
of `RedrawRequested` dispatches on one window submits two consecutive frames
at least 1/30 s apart; a dispatch arriving inside the minimum interval takes
the cap-skip path, whose only effect is re-requesting a redraw (no GPU work,
no state change); and with `vsync = true` the guard never skips, so the
scheduler does not enforce the cap. -/
theorem c4_framerate_cap (w : SchedWindow) (evs : List (ℚ × Bool)) (now : ℚ) (ok : Bool)
    (rs : RenderSettings) :
    (List.Sorted (· ≤ ·) (w.last_frame :: evs.map Prod.fst) →
      List.Chain' (fun a b => a + 1 / 30 ≤ b) (runRedraws ⟨false, some 30⟩ w evs).2) ∧
    (capSkip rs w now = true → redrawArm rs w now ok = (w, [Eff.requestRedraw w.wid], false)) ∧
    (rs.vsync = true → capSkip rs w now = false) := by
  refine ⟨?_, fun h => redrawArm_skip ok h, ?_⟩
  · intro hsorted
    have h := (runRedraws_cap_spacing 30 evs w hsorted).1
    have hc : ((30 : Nat) : ℚ) = 30 := by norm_num
    rw [hc] at h
    exact h
  · intro hv
    unfold capSkip
    rcases rs.max_framerate with _ | m
    · rfl
    · simp [hv]

/-- Witness for `c4_framerate_cap`: dispatch times 1 and 2 on a window last
drawn at 0 (sorted), a cap-skip dispatch at elapsed 0, and a vsync
configuration. -/
theorem c4_framerate_cap_witness :
    List.Chain' (fun a b => a + 1 / 30 ≤ b)
      (runRedraws ⟨false, some 30⟩ ⟨0, 0⟩ [(1, true), (2, true)]).2 ∧
    redrawArm ⟨false, some 30⟩ ⟨7, 5⟩ 5 true = (⟨7, 5⟩, [Eff.requestRedraw 7], false) ∧
    capSkip ⟨true, some 30⟩ ⟨0, 0⟩ 0 = false :=
  ⟨(c4_framerate_cap ⟨0, 0⟩ [(1, true), (2, true)] 0 true ⟨true, some 30⟩).1
      (by norm_num [List.sorted_cons]),
    (c4_framerate_cap ⟨7, 5⟩ [] 5 true ⟨false, some 30⟩).2.1
      (by simp only [capSkip]; norm_num),
    (c4_framerate_cap ⟨0, 0⟩ [] 0 true ⟨true, some 30⟩).2.2 rfl⟩

/-- C3 counterexample: frame cycle at time 1 (window last drawn at 0, cap
satisfied) whose surface-texture acquisition fails: the handler logs and
returns — the emitted effects are exactly `do_frame` and the log, so no
redraw is requested for the window, contradicting the claim that "a
subsequent redraw is still requested". -/
theorem c3_counterexample_no_redraw_after_acquire_failure :
    (window_event false ⟨false, some 30⟩ [⟨0, 0⟩] 0 WEvent.redrawRequested 1 false).2
      = [Eff.doFrame 0, Eff.logAcquireFailure 0] ∧
    Eff.requestRedraw 0
      ∉ (window_event false ⟨false, some 30⟩ [⟨0, 0⟩] 0 WEvent.redrawRequested 1 false).2 := by
  have hc : capSkip ⟨false, some 30⟩ ⟨0, 0⟩ 1 = false := by
    simp only [capSkip_no_vsync]
    rw [decide_eq_false_iff_not]
    norm_num
  have h : (window_event false ⟨false, some 30⟩ [⟨0, 0⟩] 0 WEvent.redrawRequested 1 false).2
      = [Eff.doFrame 0, Eff.logAcquireFailure 0] := by
    show (windowEventGo ⟨false, some 30⟩ [⟨0, 0⟩] 0 WEvent.redrawRequested 1 false).2 = _
    unfold windowEventGo
    rw [if_pos rfl]
    show (handleWindow ⟨false, some 30⟩ ⟨0, 0⟩ WEvent.redrawRequested 1 false).2 = _
    unfold handleWindow
    rw [redrawArm_fail hc]
    rfl
  rw [h]
  exact ⟨rfl, by simp⟩

/-- C3 as amended: when surface-texture acquisition fails on a frame cycle
that passed the frame-rate cap, the failure is non-fatal: the handler records
the new `last_frame` time, notifies `do_frame`, logs, and abandons the frame —
no submit, no present, no after-frame notification, no loop exit — but it
also does not request a subsequent redraw for the window on that dispatch
(and the generic event hook is skipped by the early return). -/
theorem c3_acquire_failure_drops_frame_without_redraw (rs : RenderSettings) (w : SchedWindow)
    (now : ℚ) (hcap : capSkip rs w now = false) :
    handleWindow rs w WEvent.redrawRequested now false
      = ({ w with last_frame := now }, [Eff.doFrame w.wid, Eff.logAcquireFailure w.wid]) ∧
    Eff.logAcquireFailure w.wid ∈ (handleWindow rs w WEvent.redrawRequested now false).2 ∧
    Eff.submit w.wid ∉ (handleWindow rs w WEvent.redrawRequested now false).2 ∧
    Eff.present w.wid ∉ (handleWindow rs w WEvent.redrawRequested now false).2 ∧
    Eff.doAfterFrame w.wid ∉ (handleWindow rs w WEvent.redrawRequested now false).2 ∧
    Eff.exitLoop ∉ (handleWindow rs w WEvent.redrawRequested now false).2 ∧
    Eff.requestRedraw w.wid ∉ (handleWindow rs w WEvent.redrawRequested now false).2 := by
  have h : handleWindow rs w WEvent.redrawRequested now false
      = ({ w with last_frame := now }, [Eff.doFrame w.wid, Eff.logAcquireFailure w.wid]) := by
    unfold handleWindow
    rw [redrawArm_fail hcap]
    rfl
  rw [h]
  refine ⟨rfl, by simp, by simp, by simp, by simp, by simp, by simp⟩

/-- Witness for `c3_acquire_failure_drops_frame_without_redraw` at time 1 on a
window last drawn at 0 with the 30 fps cap configured. -/
theorem c3_acquire_failure_drops_frame_without_redraw_witness :
    handleWindow ⟨false, some 30⟩ ⟨0, 0⟩ WEvent.redrawRequested 1 false
      = (⟨0, 1⟩, [Eff.doFrame 0, Eff.logAcquireFailure 0]) :=
  (c3_acquire_failure_drops_frame_without_redraw ⟨false, some 30⟩ ⟨0, 0⟩ 1
    (by simp only [capSkip_no_vsync]; rw [decide_eq_false_iff_not]; norm_num)).1

theorem windowEventGo_first_match :
    ∀ (pre : List SchedWindow) (rs : RenderSettings) (w : SchedWindow) (post : List SchedWindow)
      (ev : WEvent) (now : ℚ) (ok : Bool), (∀ x ∈ pre, x.wid ≠ w.wid) →
      windowEventGo rs (pre ++ w :: post) w.wid ev now ok
        = (pre ++ (handleWindow rs w ev now ok).1 :: post, (handleWindow rs w ev now ok).2)
  | [], rs, w, post, ev, now, ok, _ => by
    show windowEventGo rs (w :: post) w.wid ev now ok = _
    unfold windowEventGo
    rw [if_pos rfl]
    rfl
  | x :: pre, rs, w, post, ev, now, ok, hpre => by
    have hx : x.wid ≠ w.wid := hpre x (by simp)
    show windowEventGo rs (x :: (pre ++ w :: post)) w.wid ev now ok = _
    unfold windowEventGo
    rw [if_neg hx,
      windowEventGo_first_match pre rs w post ev now ok (fun y hy => hpre y (by simp [hy]))]
    rfl

/-- C8 counterexample: two `RedrawRequested` dispatches on a matched window
with the quit flag unset — one skipped by the frame-rate cap (elapsed
1/100 s < 1/30 s), one abandoned because surface acquisition fails — and in
both the generic `do_window_event` hook is never invoked: the cap path
`break`s and the failure path `return`s before the hook call. -/
theorem c8_counterexample_hook_skipped :
    Eff.windowEventHook 0
      ∉ (window_event false ⟨false, some 30⟩ [⟨0, 0⟩] 0 WEvent.redrawRequested (1 / 100) true).2 ∧
    Eff.windowEventHook 0
      ∉ (window_event false ⟨false, some 30⟩ [⟨0, 0⟩] 0 WEvent.redrawRequested 1 false).2 := by
  constructor
  · have hc : capSkip ⟨false, some 30⟩ ⟨0, 0⟩ (1 / 100) = true := by
      simp only [capSkip_no_vsync]
      rw [decide_eq_true_eq]
      norm_num
    have h : (window_event false ⟨false, some 30⟩ [⟨0, 0⟩] 0 WEvent.redrawRequested
        (1 / 100) true).2 = [Eff.requestRedraw 0] := by
      show (windowEventGo ⟨false, some 30⟩ [⟨0, 0⟩] 0 WEvent.redrawRequested (1 / 100) true).2 = _
      unfold windowEventGo
      rw [if_pos rfl]
      show (handleWindow ⟨false, some 30⟩ ⟨0, 0⟩ WEvent.redrawRequested (1 / 100) true).2 = _
      unfold handleWindow
      rw [redrawArm_skip true hc]
      rfl
    rw [h]
    simp
  · have hc : capSkip ⟨false, some 30⟩ ⟨0, 0⟩ 1 = false := by
      simp only [capSkip_no_vsync]
      rw [decide_eq_false_iff_not]
      norm_num
    have h : (window_event false ⟨false, some 30⟩ [⟨0, 0⟩] 0 WEvent.redrawRequested 1 false).2
        = [Eff.doFrame 0, Eff.logAcquireFailure 0] := by
      show (windowEventGo ⟨false, some 30⟩ [⟨0, 0⟩] 0 WEvent.redrawRequested 1 false).2 = _
      unfold windowEventGo
      rw [if_pos rfl]
      show (handleWindow ⟨false, some 30⟩ ⟨0, 0⟩ WEvent.redrawRequested 1 false).2 = _
      unfold handleWindow
      rw [redrawArm_fail hc]
      rfl
    rw [h]
    simp

/-- C8 as amended: for every OS window event whose target matches a known
window (quit flag unset), the generic `do_window_event` hook is invoked as
the last step, after the type-specific handling — except on `RedrawRequested`
cycles that are skipped by the frame-rate cap or abandoned by
surface-acquisition failure, where the hook is not invoked at all. -/
theorem c8_hook_after_type_specific_handling (rs : RenderSettings)
    (pre post : List SchedWindow) (w : SchedWindow) (ev : WEvent) (now : ℚ) (ok : Bool)
    (hpre : ∀ x ∈ pre, x.wid ≠ w.wid) :
    ((ev = WEvent.redrawRequested ∧ (capSkip rs w now = true ∨ ok = false)) →
      Eff.windowEventHook w.wid
        ∉ (window_event false rs (pre ++ w :: post) w.wid ev now ok).2) ∧
    (¬(ev = WEvent.redrawRequested ∧ (capSkip rs w now = true ∨ ok = false)) →
      (window_event false rs (pre ++ w :: post) w.wid ev now ok).2.getLast?
        = some (Eff.windowEventHook w.wid)) := by
  have hgo : (window_event false rs (pre ++ w :: post) w.wid ev now ok).2
      = (handleWindow rs w ev now ok).2 := by
    show (windowEventGo rs (pre ++ w :: post) w.wid ev now ok).2 = _
    rw [windowEventGo_first_match pre rs w post ev now ok hpre]
  rw [hgo]
  cases ev with
  | redrawRequested =>
    rcases hskip : capSkip rs w now with _ | _
    · cases ok
      · -- acquisition failure: hook skipped
        constructor
        · intro _
          unfold handleWindow
          rw [redrawArm_fail hskip]
          simp
        · intro hcontra
          exact absurd ⟨rfl, Or.inr rfl⟩ hcontra
      · -- full frame: hook is the final effect
        constructor
        · rintro ⟨_, hor⟩
          rcases hor with h | h <;> simp_all
        · intro _
          unfold handleWindow
          rw [redrawArm_submit hskip]
          simp [List.getLast?_concat]
    · -- cap skip: hook skipped
      constructor
      · intro _
        unfold handleWindow
        rw [redrawArm_skip ok hskip]
        simp
      · intro hcontra
        exact absurd ⟨rfl, Or.inl rfl⟩ hcontra
  | resized a b =>
    exact ⟨fun h => absurd h.1 (by simp), fun _ => rfl⟩
  | closeRequested =>
    exact ⟨fun h => absurd h.1 (by simp), fun _ => rfl⟩
  | focused f =>
    exact ⟨fun h => absurd h.1 (by simp), fun _ => rfl⟩
  | other =>
    exact ⟨fun h => absurd h.1 (by simp), fun _ => rfl⟩

/-- Witness for `c8_hook_after_type_specific_handling`: a catch-all event on
the single matching window ends with the generic hook. -/
theorem c8_hook_after_type_specific_handling_witness :
    (window_event false ⟨true, none⟩ [⟨0, 0⟩] 0 WEvent.other 0 true).2.getLast?
      = some (Eff.windowEventHook 0) :=
  (c8_hook_after_type_specific_handling ⟨true, none⟩ [] [] ⟨0, 0⟩ WEvent.other 0 true
    (by simp)).2 (by simp)

/-! ### Quit-flag shutdown -/

theorem runEvents_quit : ∀ (rs : RenderSettings) (ws : List SchedWindow)
    (evs : List (Nat × WEvent × ℚ × Bool)),
    (runEvents true rs ws evs).1 = ws ∧
    (runEvents true rs ws evs).2
      = (List.replicate evs.length
          (Eff.exitLoop :: ws.map (fun w => Eff.doClosed w.wid))).flatten
  | _, _, [] => ⟨rfl, rfl⟩
  | rs, ws, e :: rest => by
    have hone : window_event true rs ws e.1 e.2.1 e.2.2.1 e.2.2.2
        = (ws, Eff.exitLoop :: ws.map (fun w => Eff.doClosed w.wid)) := by
      unfold window_event
      rw [if_pos rfl]
    obtain ⟨ih1, ih2⟩ := runEvents_quit rs ws rest
    constructor
    · show (runEvents true rs (window_event true rs ws e.1 e.2.1 e.2.2.1 e.2.2.2).1 rest).1 = ws
      rw [hone]
      exact ih1
    · show (window_event true rs ws e.1 e.2.1 e.2.2.1 e.2.2.2).2
          ++ (runEvents true rs (window_event true rs ws e.1 e.2.1 e.2.2.1 e.2.2.2).1 rest).2
        = _
      rw [hone]
      simp only [List.length_cons, List.replicate_succ, List.flatten_cons]
      rw [ih2]

/-- C7 counterexample: with the quit flag set, two queued events dispatched to
the handler each trigger a close notification for the (single) open window,
so it receives two `window_close` notifications, not exactly one. -/
theorem c7_counterexample_duplicate_close_notifications :
    List.count (Eff.doClosed 0)
        (runEvents true ⟨false, some 30⟩ [⟨0, 0⟩]
          [(0, WEvent.other, 0, true), (0, WEvent.other, 0, true)]).2 = 2 ∧
    ¬ List.count (Eff.doClosed 0)
        (runEvents true ⟨false, some 30⟩ [⟨0, 0⟩]
          [(0, WEvent.other, 0, true), (0, WEvent.other, 0, true)]).2 = 1 := by
  constructor <;> decide

/-- C7 as amended: once the quit flag is observed true during event dispatch,
every dispatched event makes the handler request loop exit and notify every
open window of closure; so as long as at least one event is dispatched, every
open window receives at least one close notification (one per dispatched
event) before the loop returns, and zero redraw frame cycles are submitted
for any window, regardless of further queued events. -/
theorem c7_quit_closes_all_windows_without_submissions (rs : RenderSettings)
    (ws : List SchedWindow) (evs : List (Nat × WEvent × ℚ × Bool)) (hne : evs ≠ []) :
    (runEvents true rs ws evs).2
      = (List.replicate evs.length
          (Eff.exitLoop :: ws.map (fun w => Eff.doClosed w.wid))).flatten ∧
    (∀ wid, Eff.submit wid ∉ (runEvents true rs ws evs).2) ∧
    (∀ w ∈ ws, Eff.doClosed w.wid ∈ (runEvents true rs ws evs).2) ∧
    Eff.exitLoop ∈ (runEvents true rs ws evs).2 := by
  obtain ⟨-, h2⟩ := runEvents_quit rs ws evs
  have hblock : (Eff.exitLoop :: ws.map (fun w => Eff.doClosed w.wid))
      ∈ List.replicate evs.length (Eff.exitLoop :: ws.map (fun w => Eff.doClosed w.wid)) :=
    List.mem_replicate.mpr ⟨by simpa using hne, rfl⟩
  refine ⟨h2, ?_, ?_, ?_⟩
  · intro wid hmem
    rw [h2] at hmem
    obtain ⟨l, hl, hx⟩ := List.mem_flatten.mp hmem
    rw [(List.mem_replicate.mp hl).2] at hx
    rcases List.mem_cons.mp hx with h | h
    · exact Eff.noConfusion h
    · obtain ⟨y, _, hy⟩ := List.mem_map.mp h
      exact Eff.noConfusion hy
  · intro w hw
    rw [h2]
    exact List.mem_flatten.mpr ⟨_, hblock, by
      exact List.mem_cons_of_mem _ (List.mem_map.mpr ⟨w, hw, rfl⟩)⟩
  · rw [h2]
    exact List.mem_flatten.mpr ⟨_, hblock, by simp⟩

/-- Witness for `c7_quit_closes_all_windows_without_submissions`: one window,
one dispatched event while the quit flag is set. -/
theorem c7_quit_closes_all_windows_without_submissions_witness :
    Eff.doClosed 0
      ∈ (runEvents true ⟨false, some 30⟩ [⟨0, 0⟩] [(0, WEvent.other, 0, true)]).2 :=
  (c7_quit_closes_all_windows_without_submissions ⟨false, some 30⟩ [⟨0, 0⟩]
    [(0, WEvent.other, 0, true)] (by simp)).2.2.1 ⟨0, 0⟩ (by simp)

end Taika
